import Mathlib

/-!
# Verification of `src/vector.ts` (nodejs-datastore `Vector` value type)

Shallow embedding of the `Vector` class from `src/src/vector.ts`.

JavaScript numbers are IEEE-754 doubles.  We model them with an inductive
type `JSNum`: a finite value (carried as an exact rational), `NaN`, and the
two infinities.  The strict-equality operator `===` of JavaScript is modelled
by `jsEq`; its one departure from mathematical equality is that `NaN` is
unequal to everything, including itself (the signed zeros, which `===`
identifies, are collapsed into the single rational `0`).

The class methods are translated one by one:
* `Vector.ofJS`   — the constructor `value.map(v => parseFloat(v.toString()))`
* `Vector.get`    — `this.value[index]` (out-of-range indexing yields
  `undefined`, modelled as `none`)
* `Vector.slice`  — `this.value.slice(start, end)` with ECMAScript
  `Array.prototype.slice` index clamping
* `Vector.length` — `this.value.length`
* `Vector.equals` — length check plus `every((v, i) => v === other.value[i])`
* `Vector.render` — `` `Vector<${this.value.join(', ')}>` `` (source name
  `toString`)
* `Vector._toDict` — the wire-format record
Each method also has a state-passing variant (suffix `S`) that returns the
receiver after the call next to the result, making any mutation of the
receiver explicit; the source method bodies never assign to `this.value`,
so each variant returns the receiver unchanged.
-/

set_option autoImplicit false

namespace Datastore

/-- A JavaScript number: a finite IEEE-754 double (modelled as the exact
rational it denotes), `NaN`, or one of the two infinities. -/
inductive JSNum where
  | num (q : ℚ)
  | nan
  | inf
  | negInf
deriving DecidableEq, Repr

/-- JavaScript strict equality `===` restricted to numbers: `NaN` compares
unequal to every value including itself; all other numbers compare by
value. -/
def jsEq : JSNum → JSNum → Bool
  | .nan, _ => false
  | _, .nan => false
  | .num a, .num b => decide (a = b)
  | .inf, .inf => true
  | .negInf, .negInf => true
  | _, _ => false

/-- A JavaScript value handed to the `Vector` constructor: the TypeScript
signature says `number[]`, but untyped callers can pass other values, which
the constructor coerces via `parseFloat(v.toString())`.  We model numbers and
strings; for a number `n`, `parseFloat(n.toString())` returns `n` itself (the
JavaScript number-to-string conversion round-trips through `parseFloat`), and
for a string, `toString` is the identity, so the coercion is `parseFloat`. -/
inductive JSVal where
  | num (n : JSNum)
  | str (s : String)
deriving DecidableEq, Repr

/-- Splits off the longest leading run of decimal digits. -/
def takeDigits : List Char → List Char × List Char
  | [] => ([], [])
  | c :: cs =>
    if c.isDigit then
      let p := takeDigits cs
      (c :: p.1, p.2)
    else ([], c :: cs)

/-- Numeric value of a decimal digit character. -/
def digitVal (c : Char) : ℕ := c.toNat - '0'.toNat

/-- Value of a digit run read as an integer part. -/
def intVal (ds : List Char) : ℚ :=
  ds.foldl (fun acc c => acc * 10 + (digitVal c : ℚ)) 0

/-- Value of a digit run read as a fractional part (digits after the dot). -/
def fracVal (ds : List Char) : ℚ :=
  ds.foldr (fun c acc => ((digitVal c : ℚ) + acc) / 10) 0

/-- Value of a digit run read as a natural number (used for exponents). -/
def natVal (ds : List Char) : ℕ :=
  ds.foldl (fun acc c => acc * 10 + digitVal c) 0

/-- Strips an optional leading sign, returning whether the value is negated
and the remaining characters. -/
def stripSign (l : List Char) : Bool × List Char :=
  match l with
  | c :: r => if c = '-' then (true, r) else if c = '+' then (false, r) else (false, l)
  | [] => (false, [])

/-- Reads an optional fraction part: a dot followed by digits; returns the
fraction digits and the remaining characters. -/
def fracSplit (l : List Char) : List Char × List Char :=
  match l with
  | c :: t => if c = '.' then takeDigits t else ([], l)
  | [] => ([], [])

/-- Reads an optional exponent suffix `e`/`E` with an optional sign; a
missing or empty exponent contributes the factor `10 ^ 0`. -/
def expVal (l : List Char) : ℤ :=
  match l with
  | c :: t =>
    if c = 'e' ∨ c = 'E' then
      match t with
      | d :: u =>
        if d = '-' then -(natVal (takeDigits u).1 : ℤ)
        else if d = '+' then (natVal (takeDigits u).1 : ℤ)
        else (natVal (takeDigits t).1 : ℤ)
      | [] => 0
    else 0
  | [] => 0

/-- The grammar of the JavaScript builtin `parseFloat` after whitespace has
been skipped: an optional sign, then either `Infinity` or a decimal literal
`digits [. digits] [e sign digits]`; trailing non-numeric input is ignored,
and if no numeric prefix exists at all the result is `NaN`. -/
def parseFloatChars (cs : List Char) : JSNum :=
  let neg := (stripSign cs).1
  let cs1 := (stripSign cs).2
  if cs1.take 8 = "Infinity".data then
    if neg then JSNum.negInf else JSNum.inf
  else
    let ip := (takeDigits cs1).1
    let rest1 := (takeDigits cs1).2
    let fp := (fracSplit rest1).1
    let rest2 := (fracSplit rest1).2
    if ip = [] ∧ fp = [] then JSNum.nan
    else
      let m : ℚ := (intVal ip + fracVal fp) * (10 : ℚ) ^ expVal rest2
      JSNum.num (if neg then -m else m)

/-- Models the JavaScript builtin `parseFloat`: skip leading whitespace,
then parse the numeric prefix. -/
def jsParseFloat (s : String) : JSNum :=
  parseFloatChars (s.data.dropWhile fun c => c.isWhitespace)

/-- The coercion `parseFloat(v.toString())` applied by the constructor to
each element: a number round-trips to itself, a string goes through
`parseFloat`. -/
def jsCoerce : JSVal → JSNum
  | .num n => n
  | .str s => jsParseFloat s

/-- A character that can start neither a digit run nor `Infinity`: a string
all of whose characters satisfy this has no numeric prefix at all, so
`parseFloat` maps it to `NaN`. -/
def nonNumericChar (c : Char) : Bool := !c.isDigit && !(c == 'I')

/-- `const VECTOR_VALUE = 31` — the protocol meaning tag marking an array
value as a vector. -/
def VECTOR_VALUE : ℕ := 31

/-- One entry of the wire-format values list: `{double_value: v}`. -/
structure DoubleValue where
  double_value : JSNum
deriving DecidableEq, Repr

/-- The wire-format array wrapper: `{values: [...]}`. -/
structure ArrayValue where
  values : List DoubleValue
deriving DecidableEq, Repr

/-- The record produced by `Vector._toDict` (interface `VectorDict`). -/
structure VectorDict where
  array_value : ArrayValue
  meaning : ℕ
  exclude_from_indexes : Bool
deriving DecidableEq, Repr

/-- The `Vector` class: its single field `value: number[]`. -/
structure Vector where
  value : List JSNum
deriving DecidableEq, Repr

/-- The constructor: `this.value = value.map(v => parseFloat(v.toString()))`. -/
def Vector.ofJS (value : List JSVal) : Vector :=
  ⟨value.map jsCoerce⟩

/-- `get(index) { return this.value[index]; }` — JavaScript array indexing:
a negative or out-of-range index reads an absent property and yields
`undefined`, modelled as `none`. -/
def Vector.get (v : Vector) (index : Int) : Option JSNum :=
  if index < 0 then none else v.value[index.toNat]?

/-- ECMAScript `Array.prototype.slice` index resolution: a negative index
counts from the end and is clamped below at `0`; a non-negative index is
clamped above at the length. -/
def jsSliceIndex (len : ℕ) (i : Int) : ℕ :=
  if i < 0 then ((len : Int) + i).toNat else min i.toNat len

/-- The resolved start bound of `Array.prototype.slice`: an omitted start
defaults to `0`. -/
def sliceStart (len : ℕ) : Option Int → ℕ
  | none => 0
  | some i => jsSliceIndex len i

/-- The resolved end bound of `Array.prototype.slice`: an omitted end
defaults to the length. -/
def sliceEnd (len : ℕ) : Option Int → ℕ
  | none => len
  | some i => jsSliceIndex len i

/-- `slice(start?, end?) { return new Vector(this.value.slice(start, end)); }`
— the elements from the resolved start up to, excluding, the resolved end;
elements are numbers already, so the constructor coercion in
`new Vector(...)` is the identity on them. -/
def Vector.slice (v : Vector) (start endIdx : Option Int) : Vector :=
  ⟨(v.value.drop (sliceStart v.value.length start)).take
      (sliceEnd v.value.length endIdx - sliceStart v.value.length start)⟩

/-- `get length() { return this.value.length; }` -/
def Vector.length (v : Vector) : ℕ := v.value.length

/-- The comparison reached once the `instanceof` guard has passed:
`this.value.length === other.value.length &&
 this.value.every((v, i) => v === other.value[i])`.
`every` hands the callback each element with its index; `other.value[i]`
is `undefined` (never `===` a number) when `i` is out of range for
`other`. -/
def Vector.equals (v other : Vector) : Bool :=
  (v.value.length == other.value.length) &&
    v.value.enum.all fun p =>
      match other.value[p.1]? with
      | some y => jsEq p.2 y
      | none => false

/-- An arbitrary JavaScript value passed as the `other` argument of
`equals`: a `Vector` instance, a plain array, or a primitive. -/
inductive JSArg where
  | vec (v : Vector)
  | arr (l : List JSVal)
  | prim (x : JSVal)
deriving DecidableEq, Repr

/-- The `instanceof Vector` test. -/
def JSArg.isVector : JSArg → Bool
  | .vec _ => true
  | _ => false

/-- The full body of `equals`, including the guard:
`if (!(other instanceof Vector)) throw new Error(...)`. -/
def Vector.equalsChecked (v : Vector) : JSArg → Except String Bool
  | .vec w => .ok (v.equals w)
  | _ => .error "Cannot compare Vector to a non-Vector object."

/-- The string form of a number as produced by JavaScript `toString`; the
exact decimal rendering of finite doubles is abstracted (no claim depends
on it), the special values print as in JavaScript. -/
def jsNumRender : JSNum → String
  | .nan => "NaN"
  | .inf => "Infinity"
  | .negInf => "-Infinity"
  | .num q => if q.den = 1 then toString q.num else toString q

/-- `toString() { return `Vector<${this.value.join(', ')}>`; }` -/
def Vector.render (v : Vector) : String :=
  "Vector<" ++ String.intercalate ", " (v.value.map jsNumRender) ++ ">"

/-- `_toDict()`: the wire-format record
`{array_value: {values: this.value.map(v => ({double_value: v}))},
  meaning: VECTOR_VALUE, exclude_from_indexes: true}`. -/
def Vector._toDict (v : Vector) : VectorDict :=
  { array_value := { values := v.value.map fun x => { double_value := x } },
    meaning := VECTOR_VALUE,
    exclude_from_indexes := true }

/-- `get` with the receiver's post-call state made explicit: the body only
reads `this.value`, so the receiver is returned unchanged. -/
def Vector.getS (v : Vector) (index : Int) : Option JSNum × Vector :=
  (v.get index, v)

/-- `slice` with the receiver's post-call state: `Array.prototype.slice`
copies, it does not splice the receiver, and the body performs no
assignment, so the receiver is returned unchanged next to the fresh
`Vector`. -/
def Vector.sliceS (v : Vector) (start endIdx : Option Int) : Vector × Vector :=
  (v.slice start endIdx, v)

/-- `length` with the receiver's post-call state. -/
def Vector.lengthS (v : Vector) : ℕ × Vector :=
  (v.length, v)

/-- `equals` (guard included) with the receiver's post-call state. -/
def Vector.equalsS (v : Vector) (other : JSArg) : Except String Bool × Vector :=
  (v.equalsChecked other, v)

/-- `toString` with the receiver's post-call state. -/
def Vector.renderS (v : Vector) : String × Vector :=
  (v.render, v)

/-- `_toDict` with the receiver's post-call state. -/
def Vector.toDictS (v : Vector) : VectorDict × Vector :=
  (v._toDict, v)

/-! ## Properties of strict equality on numbers -/

theorem jsEq_symm (a b : JSNum) : jsEq a b = jsEq b a := by
  cases a <;> cases b <;> simp [jsEq, eq_comm]

theorem jsEq_eq_true_iff {a : JSNum} (b : JSNum) (h : a ≠ JSNum.nan) :
    jsEq a b = true ↔ a = b := by
  cases a <;> cases b <;> simp_all [jsEq]

/-! ## Characterization of `Vector.equals` -/

/-- `equals` returns `true` exactly when the lengths agree and strict
equality holds at every index. -/
theorem equals_eq_true_iff (v1 v2 : Vector) :
    v1.equals v2 = true ↔
      (v1.value.length = v2.value.length ∧
        ∀ (i : ℕ) (h1 : i < v1.value.length) (h2 : i < v2.value.length),
          jsEq v1.value[i] v2.value[i] = true) := by
  unfold Vector.equals
  rw [Bool.and_eq_true, beq_iff_eq, List.all_eq_true]
  constructor
  · rintro ⟨hlen, hall⟩
    refine ⟨hlen, fun i h1 h2 => ?_⟩
    have hmem := List.forall_mem_enum.mp hall i h1
    simpa [List.getElem?_eq_getElem h2] using hmem
  · rintro ⟨hlen, h⟩
    refine ⟨hlen, List.forall_mem_enum.mpr fun i h1 => ?_⟩
    have h2 : i < v2.value.length := hlen ▸ h1
    simpa [List.getElem?_eq_getElem h2] using h i h1 h2

theorem equals_symm (v1 v2 : Vector) : v1.equals v2 = v2.equals v1 := by
  rw [Bool.eq_iff_iff, equals_eq_true_iff, equals_eq_true_iff]
  constructor <;> rintro ⟨hlen, hi⟩ <;>
    exact ⟨hlen.symm, fun i ha hb => by rw [jsEq_symm]; exact hi i hb ha⟩

/-! ## `parseFloat` on non-numeric input -/

theorem takeDigits_eq_nil (l : List Char) (h : ∀ c ∈ l, ¬ c.isDigit) :
    takeDigits l = ([], l) := by
  cases l with
  | nil => rfl
  | cons c cs => simp [takeDigits, h c (List.mem_cons_self c cs)]

theorem stripSign_mem {c : Char} {l : List Char} (h : c ∈ (stripSign l).2) :
    c ∈ l := by
  cases l with
  | nil => simp [stripSign] at h
  | cons d r =>
    by_cases hd : d = '-'
    · rw [stripSign, if_pos hd] at h
      exact List.mem_cons_of_mem _ h
    · by_cases hd2 : d = '+'
      · rw [stripSign, if_neg hd, if_pos hd2] at h
        exact List.mem_cons_of_mem _ h
      · rwa [stripSign, if_neg hd, if_neg hd2] at h

theorem fracSplit_fst_eq_nil (l : List Char) (h : ∀ c ∈ l, ¬ c.isDigit) :
    (fracSplit l).1 = [] := by
  cases l with
  | nil => rfl
  | cons c t =>
    by_cases hc : c = '.'
    · have ht : takeDigits t = ([], t) :=
        takeDigits_eq_nil t fun d hd => h d (List.mem_cons_of_mem _ hd)
      simp [fracSplit, hc, ht]
    · simp [fracSplit, hc]

theorem nonNumericChar_spec {c : Char} (h : nonNumericChar c = true) :
    ¬ c.isDigit ∧ c ≠ 'I' := by
  simp only [nonNumericChar, Bool.and_eq_true, Bool.not_eq_true'] at h
  refine ⟨by simp [h.1], fun hc => ?_⟩
  subst hc
  simp at h

theorem parseFloatChars_eq_nan (cs : List Char)
    (h : ∀ c ∈ cs, nonNumericChar c = true) :
    parseFloatChars cs = JSNum.nan := by
  have h1 : ∀ c ∈ (stripSign cs).2, ¬ c.isDigit ∧ c ≠ 'I' :=
    fun c hc => nonNumericChar_spec (h c (stripSign_mem hc))
  have hd : ∀ c ∈ (stripSign cs).2, ¬ c.isDigit := fun c hc => (h1 c hc).1
  have hInf : ¬ (stripSign cs).2.take 8 = "Infinity".data := by
    intro hc
    have hI : 'I' ∈ (stripSign cs).2.take 8 := by
      rw [hc]
      decide
    exact (h1 'I' ((stripSign cs).2.take_sublist 8 |>.mem hI)).2 rfl
  simp only [parseFloatChars]
  rw [if_neg hInf, takeDigits_eq_nil _ hd]
  simp [fracSplit_fst_eq_nil _ hd]

theorem jsParseFloat_eq_nan (s : String)
    (h : ∀ c ∈ s.data, nonNumericChar c = true) :
    jsParseFloat s = JSNum.nan :=
  parseFloatChars_eq_nan _ fun c hc =>
    h c (List.dropWhile_sublist _ |>.mem hc)

/-! ## Resolution of slice bounds -/

theorem jsSliceIndex_le (len : ℕ) (k : Int) : jsSliceIndex len k ≤ len := by
  unfold jsSliceIndex
  split
  · omega
  · exact min_le_right _ _

/-- The resolved slice index is the relative index (negative counts from
the end) clamped into `[0, len]`. -/
theorem jsSliceIndex_spec (len : ℕ) (k : Int) :
    (jsSliceIndex len k : Int)
      = min (max (if k < 0 then (len : Int) + k else k) 0) (len : Int) := by
  unfold jsSliceIndex
  by_cases hk : k < 0
  · rw [if_pos hk, if_pos hk, Int.toNat_eq_max]
    have h1 : max ((len : Int) + k) 0 ≤ (len : Int) := by
      rw [max_le_iff]
      constructor <;> omega
    rw [min_eq_left h1]
  · rw [if_neg hk, if_neg hk, Nat.cast_min, Int.toNat_of_nonneg (by omega),
      max_eq_left (by omega : (0 : Int) ≤ k)]

/-! ## Claim theorems -/

/-- C1: for every `Vector` `v`, `_toDict` returns exactly the record
`{array_value: {values: [{double_value: v0}, ...]}, meaning: 31,
exclude_from_indexes: true}`: the values list has the same length as `v`,
its `i`-th entry wraps the `i`-th element of `v` as a `double_value`, the
meaning tag is the constant `31`, and `exclude_from_indexes` is `true`. -/
theorem toDict_wire_format (v : Vector) :
    v._toDict.meaning = 31 ∧
    v._toDict.exclude_from_indexes = true ∧
    v._toDict.array_value.values.length = v.value.length ∧
    ∀ i : ℕ,
      v._toDict.array_value.values[i]? = (v.value[i]?).map fun x => ⟨x⟩ := by
  refine ⟨rfl, rfl, by simp [Vector._toDict], fun i => ?_⟩
  simp [Vector._toDict]

/-- C2 (amended): for every two `Vector`s `v1` and `v2` where `v1` contains
no NaN element, `v1.equals v2` returns `true` iff `v1` and `v2` carry the
same value sequence (same length and, at every position, the same element).
Without the no-NaN proviso the equivalence fails, because element comparison
is IEEE-754 strict equality, under which NaN is unequal to itself. -/
theorem vector_equals_structural (v1 v2 : Vector) (h : JSNum.nan ∉ v1.value) :
    v1.equals v2 = true ↔ v1.value = v2.value := by
  obtain ⟨l1⟩ := v1
  obtain ⟨l2⟩ := v2
  rw [equals_eq_true_iff]
  constructor
  · rintro ⟨hlen, hi⟩
    refine List.ext_getElem? fun n => ?_
    rcases Nat.lt_or_ge n l1.length with hn | hn
    · have hn2 : n < l2.length := hlen ▸ hn
      rw [List.getElem?_eq_getElem hn, List.getElem?_eq_getElem hn2]
      have hne : l1[n] ≠ JSNum.nan := fun hc => h (hc ▸ List.getElem_mem hn)
      exact congrArg some ((jsEq_eq_true_iff _ hne).mp (hi n hn hn2))
    · rw [List.getElem?_eq_none hn, List.getElem?_eq_none (hlen ▸ hn)]
  · intro hv
    simp only at hv
    subst hv
    refine ⟨rfl, fun i h1 h2 => ?_⟩
    have hne : l1[i] ≠ JSNum.nan := fun hc => h (hc ▸ List.getElem_mem h1)
    exact (jsEq_eq_true_iff _ hne).mpr rfl

/-- C2 counterexample: the claim as stated (without the no-NaN proviso)
fails at `v1 = v2 = Vector [NaN]`: the two vectors have identical value
sequences, yet `equals` returns `false`. -/
theorem vector_equals_structural_counterexample :
    (Vector.mk [JSNum.nan]).equals (Vector.mk [JSNum.nan]) = false ∧
    (Vector.mk [JSNum.nan]).value = (Vector.mk [JSNum.nan]).value :=
  ⟨rfl, rfl⟩

/-- C2 witness: the amended equivalence at the concrete NaN-free vector
`[1, 2, 3]`. -/
theorem vector_equals_structural_witness :
    JSNum.nan ∉ (Vector.mk [JSNum.num 1, JSNum.num 2, JSNum.num 3]).value ∧
    ((Vector.mk [JSNum.num 1, JSNum.num 2, JSNum.num 3]).equals
        (Vector.mk [JSNum.num 1, JSNum.num 2, JSNum.num 3]) = true ↔
      (Vector.mk [JSNum.num 1, JSNum.num 2, JSNum.num 3]).value
        = (Vector.mk [JSNum.num 1, JSNum.num 2, JSNum.num 3]).value) :=
  ⟨by decide, vector_equals_structural _ _ (by decide)⟩

/-- C3 (amended): `equals` is symmetric for all vectors, and reflexive for
every vector that contains no NaN element; a NaN element breaks
reflexivity. -/
theorem vector_equals_refl_symm (v v1 v2 : Vector) (h : JSNum.nan ∉ v.value) :
    v.equals v = true ∧ v1.equals v2 = v2.equals v1 := by
  refine ⟨?_, equals_symm v1 v2⟩
  rw [equals_eq_true_iff]
  refine ⟨rfl, fun i h1 h2 => ?_⟩
  have hne : v.value[i] ≠ JSNum.nan := fun hc => h (hc ▸ List.getElem_mem h1)
  exact (jsEq_eq_true_iff _ hne).mpr rfl

/-- C3 counterexample: reflexivity fails as stated: the vector `[NaN]` is
not `equals`-equal to itself. -/
theorem vector_equals_refl_counterexample :
    ¬ (Vector.mk [JSNum.nan]).equals (Vector.mk [JSNum.nan]) = true := by
  decide

/-- C3 witness: reflexivity at the NaN-free vector `[1]` and symmetry at
the pair `([1], [NaN, 2])`. -/
theorem vector_equals_refl_symm_witness :
    JSNum.nan ∉ (Vector.mk [JSNum.num 1]).value ∧
    ((Vector.mk [JSNum.num 1]).equals (Vector.mk [JSNum.num 1]) = true ∧
      (Vector.mk [JSNum.num 1]).equals (Vector.mk [JSNum.nan, JSNum.num 2])
        = (Vector.mk [JSNum.nan, JSNum.num 2]).equals (Vector.mk [JSNum.num 1])) :=
  ⟨by decide, vector_equals_refl_symm _ _ _ (by decide)⟩

/-- C4: whenever a vector's value sequence contains a NaN element at any
position, `v.equals v` returns `false`, because element comparison is
IEEE-754 strict equality, under which NaN is unequal to itself. -/
theorem vector_nan_not_self_equal (v : Vector) (h : JSNum.nan ∈ v.value) :
    v.equals v = false := by
  rw [Bool.eq_false_iff]
  intro hc
  rw [equals_eq_true_iff] at hc
  obtain ⟨i, hi, hget⟩ := List.getElem_of_mem h
  have hji := hc.2 i hi hi
  rw [hget] at hji
  simp [jsEq] at hji

/-- C4 witness: the vector `[1, NaN]`, built from input coerced to NaN, is
not `equals`-equal to itself. -/
theorem vector_nan_not_self_equal_witness :
    JSNum.nan ∈ (Vector.mk [JSNum.num 1, JSNum.nan]).value ∧
    (Vector.mk [JSNum.num 1, JSNum.nan]).equals
      (Vector.mk [JSNum.num 1, JSNum.nan]) = false :=
  ⟨by decide, vector_nan_not_self_equal _ (by decide)⟩

/-- C5: `equals` fails exactly on non-`Vector` arguments: against a
`Vector` it returns the comparison result without an error, and against
any non-`Vector` value it throws the documented error; the constructor's
coercion turns non-numeric input (a string with no numeric prefix) into
the NaN sentinel rather than raising.  The remaining operations
(`ofJS`, `get`, `slice`, `length`, `render`, `_toDict`) are total
functions of the embedding, so they have no failure mode at all. -/
theorem vector_error_handling (v w : Vector) (a : JSArg) (s : String)
    (ha : a.isVector = false)
    (hs : s.data.all nonNumericChar = true) :
    v.equalsChecked (JSArg.vec w) = Except.ok (v.equals w) ∧
    v.equalsChecked a
      = Except.error "Cannot compare Vector to a non-Vector object." ∧
    jsCoerce (JSVal.str s) = JSNum.nan := by
  refine ⟨rfl, ?_, jsParseFloat_eq_nan s (List.all_eq_true.mp hs)⟩
  cases a with
  | vec w2 => simp [JSArg.isVector] at ha
  | arr l => rfl
  | prim x => rfl

/-- C5 witness: comparing `Vector [1]` against the plain array `[1, 2, 3]`
raises the documented error, comparing it against a `Vector` succeeds, and
the non-numeric string `"abc"` coerces to NaN. -/
theorem vector_error_handling_witness :
    (JSArg.arr [JSVal.num (JSNum.num 1), JSVal.num (JSNum.num 2),
        JSVal.num (JSNum.num 3)]).isVector = false ∧
    ("abc".data.all nonNumericChar = true) ∧
    ((Vector.mk [JSNum.num 1]).equalsChecked (JSArg.vec (Vector.mk [JSNum.num 1]))
        = Except.ok ((Vector.mk [JSNum.num 1]).equals (Vector.mk [JSNum.num 1])) ∧
      (Vector.mk [JSNum.num 1]).equalsChecked
          (JSArg.arr [JSVal.num (JSNum.num 1), JSVal.num (JSNum.num 2),
            JSVal.num (JSNum.num 3)])
        = Except.error "Cannot compare Vector to a non-Vector object." ∧
      jsCoerce (JSVal.str "abc") = JSNum.nan) :=
  ⟨by decide, by decide,
    vector_error_handling _ _ _ _ (by decide) (by decide)⟩

/-- C6: `slice` returns a new `Vector` holding the half-open sub-range
`[start, end)` of the receiver's value: the resolved bounds are clamped
into `[0, length]`, a negative bound counts from the end, an omitted start
defaults to `0` and an omitted end to the length, the result has length
`end - start` and its `i`-th element is the receiver's `(start + i)`-th
element. -/
theorem vector_slice_spec (v : Vector) (start endIdx : Option Int) :
    (v.slice start endIdx).value.length
      = sliceEnd v.value.length endIdx - sliceStart v.value.length start ∧
    (∀ i : ℕ,
      (v.slice start endIdx).value[i]?
        = if i < sliceEnd v.value.length endIdx - sliceStart v.value.length start
          then v.value[sliceStart v.value.length start + i]?
          else none) ∧
    sliceStart v.value.length start ≤ v.value.length ∧
    sliceEnd v.value.length endIdx ≤ v.value.length ∧
    sliceStart v.value.length none = 0 ∧
    sliceEnd v.value.length none = v.value.length ∧
    (∀ k : Int,
      (jsSliceIndex v.value.length k : Int)
        = min (max (if k < 0 then (v.value.length : Int) + k else k) 0)
            (v.value.length : Int)) ∧
    (v.slice none none).value = v.value := by
  have hss : sliceStart v.value.length start ≤ v.value.length := by
    cases start with
    | none => exact Nat.zero_le _
    | some i => exact jsSliceIndex_le _ i
  have hse : sliceEnd v.value.length endIdx ≤ v.value.length := by
    cases endIdx with
    | none => exact Nat.le_refl _
    | some i => exact jsSliceIndex_le _ i
  have hlen : (v.slice start endIdx).value.length
      = sliceEnd v.value.length endIdx - sliceStart v.value.length start := by
    simp only [Vector.slice, List.length_take, List.length_drop]
    omega
  refine ⟨hlen, fun i => ?_, hss, hse, rfl, rfl, fun k => ?_, ?_⟩
  · by_cases hi :
        i < sliceEnd v.value.length endIdx - sliceStart v.value.length start
    · rw [if_pos hi]
      simp only [Vector.slice]
      rw [List.getElem?_take_of_lt hi, List.getElem?_drop]
    · rw [if_neg hi]
      exact List.getElem?_eq_none (by omega)
  · exact jsSliceIndex_spec _ k
  · simp [Vector.slice, sliceStart, sliceEnd]

/-- C7: for every input sequence `s` and in-range index `i`, `get` on the
constructed vector returns the coercion `parseFloat(toString)` of the
`i`-th input element, and that coercion is the identity on every numeric
input element. -/
theorem vector_get_in_range (s : List JSVal) (i : ℕ) (h : i < s.length)
    (m : JSNum) :
    (Vector.ofJS s).get (i : Int) = some (jsCoerce s[i]) ∧
    jsCoerce (JSVal.num m) = m := by
  refine ⟨?_, rfl⟩
  have h0 : ¬ ((i : Int) < 0) := by omega
  simp [Vector.get, Vector.ofJS, h0, List.getElem?_eq_getElem h]

/-- C7 witness: element `0` of `Vector([3, "x"])` is the coercion of the
first input element, namely the number `3` itself. -/
theorem vector_get_in_range_witness :
    0 < ([JSVal.num (JSNum.num 3), JSVal.str "x"] : List JSVal).length ∧
    ((Vector.ofJS [JSVal.num (JSNum.num 3), JSVal.str "x"]).get ((0 : ℕ) : Int)
        = some (jsCoerce ([JSVal.num (JSNum.num 3), JSVal.str "x"] : List JSVal)[0]) ∧
      jsCoerce (JSVal.num (JSNum.num 7)) = JSNum.num 7) :=
  ⟨by decide, vector_get_in_range _ 0 (by decide) (JSNum.num 7)⟩

/-- C8: for every index outside `[0, length)` — negative or at least the
length — `get` returns the `undefined` sentinel (`none`), raises no error
(it is a total function of the embedding) and leaves the receiver
unchanged. -/
theorem vector_get_out_of_range (v : Vector) (i : Int)
    (h : i < 0 ∨ (v.value.length : Int) ≤ i) :
    v.get i = none ∧ v.getS i = (none, v) := by
  have hg : v.get i = none := by
    unfold Vector.get
    rcases h with h | h
    · rw [if_pos h]
    · rw [if_neg (by omega)]
      exact List.getElem?_eq_none (by omega)
  exact ⟨hg, by simp [Vector.getS, hg]⟩

/-- C8 witness: reading index `-1` of `Vector [1]` yields the sentinel and
does not change the vector. -/
theorem vector_get_out_of_range_witness :
    ((-1 : Int) < 0 ∨ ((Vector.mk [JSNum.num 1]).value.length : Int) ≤ -1) ∧
    ((Vector.mk [JSNum.num 1]).get (-1) = none ∧
      (Vector.mk [JSNum.num 1]).getS (-1) = (none, Vector.mk [JSNum.num 1])) :=
  ⟨Or.inl (by decide), vector_get_out_of_range _ _ (Or.inl (by decide))⟩

/-- C9: the constructor maps the input sequence element by element, so
`length` of the constructed vector equals the length of the input
sequence. -/
theorem vector_length_preserved (s : List JSVal) :
    (Vector.ofJS s).length = s.length := by
  simp [Vector.ofJS, Vector.length]

/-- C10: every operation leaves the receiver's value sequence unchanged —
in the state-passing translation each method returns the receiver exactly
as it was — and `slice` produces its result as a separate new `Vector`
value rather than by mutating the receiver. -/
theorem vector_immutable (v : Vector) (i : Int) (start endIdx : Option Int)
    (a : JSArg) :
    (v.getS i).2 = v ∧ (v.sliceS start endIdx).2 = v ∧ v.lengthS.2 = v ∧
    (v.equalsS a).2 = v ∧ v.renderS.2 = v ∧ v.toDictS.2 = v ∧
    (v.sliceS start endIdx).1 = v.slice start endIdx :=
  ⟨rfl, rfl, rfl, rfl, rfl, rfl, rfl⟩

end Datastore

